import Mathlib

/-!
Shallow embedding of the actix-web user-store service (`src/main.rs`).

The store state is `AppState`: a list of `User` records plus a `u32`
counter.  Each HTTP handler that touches the store is modelled as a pure
function from the lock-acquisition outcome (`lockOk : Bool`, the result
of `data.lock()`) and the current state to an `HttpResponse` paired with
the state left behind.  `u32` arithmetic is modelled on `Nat` with an
explicit `% 4294967296` (= 2^32) at the single addition the code
performs (`app_state.user_counter + 1`), matching wrapping (release
mode) Rust semantics.
-/

namespace UserStore

/-- Rust `struct User { id: u32, name: String, email: String }`. -/
structure User where
  id : Nat
  name : String
  email : String
deriving DecidableEq

/-- Rust `struct AppState { users: Vec<User>, user_counter: u32 }`. -/
structure AppState where
  users : List User
  user_counter : Nat
deriving DecidableEq

/-- Response bodies produced by the handlers: plain text, one JSON user,
or a JSON array of users. -/
inductive Body where
  | text (s : String)
  | jsonUser (u : User)
  | jsonUsers (us : List User)
deriving DecidableEq

/-- An HTTP response: status code plus body. -/
structure HttpResponse where
  status : Nat
  body : Body
deriving DecidableEq

/-- Handler for `GET /` (`hello`). -/
def hello : HttpResponse :=
  ⟨200, Body.text "Hello, actix-web!"⟩

/-- Handler for `GET /users` (`get_users`).  `lockOk` is the outcome of
`data.lock()`; the handler only clones the user list, leaving the state
as it was. -/
def get_users (lockOk : Bool) (s : AppState) : HttpResponse × AppState :=
  if lockOk then
    (⟨200, Body.jsonUsers s.users⟩, s)
  else
    (⟨500, Body.text "Failed to lock application state"⟩, s)

/-- Handler for `GET /users/{id}` (`get_user`): linear scan with
`find` for the first record whose id equals `user_id`. -/
def get_user (user_id : Nat) (lockOk : Bool) (s : AppState) :
    HttpResponse × AppState :=
  if lockOk then
    ((match s.users.find? (fun u => u.id == user_id) with
      | some user => ⟨200, Body.jsonUser user⟩
      | none =>
        ⟨404, Body.text ("User with ID " ++ toString user_id ++ " not found")⟩
      : HttpResponse), s)
  else
    (⟨500, Body.text "Failed to lock application state"⟩, s)

/-- Handler for `POST /users` (`create_user`): assigns
`user_id = user_counter + 1` (u32 addition), appends the new record,
stores the new counter and answers 201 with the created user. -/
def create_user (nm em : String) (lockOk : Bool) (s : AppState) :
    HttpResponse × AppState :=
  if lockOk then
    let user_id := (s.user_counter + 1) % 4294967296
    let new_user : User := ⟨user_id, nm, em⟩
    (⟨201, Body.jsonUser new_user⟩, ⟨s.users ++ [new_user], user_id⟩)
  else
    (⟨500, Body.text "Failed to lock application state"⟩, s)

/-- The state built in `main`: Alice (id 1), Bob (id 2), counter 2. -/
def seed_state : AppState :=
  ⟨[⟨1, "Alice", "alice@example.com"⟩, ⟨2, "Bob", "bob@example.com"⟩], 2⟩

/-- One store-touching request, executed with the lock successfully
acquired. -/
inductive Op where
  | listUsers
  | getUser (id : Nat)
  | insert (nm em : String)

/-- State left behind by one operation. -/
def applyOp (s : AppState) : Op → AppState
  | Op.listUsers => (get_users true s).2
  | Op.getUser i => (get_user i true s).2
  | Op.insert nm em => (create_user nm em true s).2

/-- Run a sequence of operations, threading the state. -/
def run (s : AppState) : List Op → AppState
  | [] => s
  | op :: ops => run (applyOp s op) ops

/-- Number of inserts in a trace. -/
def insertCount : List Op → Nat
  | [] => 0
  | Op.listUsers :: ops => insertCount ops
  | Op.getUser _ :: ops => insertCount ops
  | Op.insert _ _ :: ops => insertCount ops + 1

/-- The records that a sequence of insert bodies appends when started
from counter value `c`. -/
def insertedRecords (c : Nat) : List (String × String) → List User
  | [] => []
  | (nm, em) :: rest =>
    ⟨(c + 1) % 4294967296, nm, em⟩ :: insertedRecords ((c + 1) % 4294967296) rest

/-- The users returned (inside the 201 responses) by a sequence of
insert calls executed one after the other. -/
def insertReturns (s : AppState) : List (String × String) → List User
  | [] => []
  | (nm, em) :: rest =>
    match (create_user nm em true s).1.body with
    | Body.jsonUser u => u :: insertReturns (create_user nm em true s).2 rest
    | _ => insertReturns (create_user nm em true s).2 rest

/-- Insert operations for a list of name/email pairs. -/
def insertOps (ps : List (String × String)) : List Op :=
  ps.map fun p => Op.insert p.1 p.2

/-- The store invariant of the spec: identifiers pairwise distinct and
the counter at least every identifier present. -/
def StoreInvariant (s : AppState) : Prop :=
  (s.users.map User.id).Nodup ∧ ∀ u ∈ s.users, u.id ≤ s.user_counter

/-- Strengthened inductive invariant: identifiers pairwise distinct and
each identifier between 1 and the counter. -/
def AuxInvariant (s : AppState) : Prop :=
  (s.users.map User.id).Nodup ∧ ∀ u ∈ s.users, 1 ≤ u.id ∧ u.id ≤ s.user_counter

/-! Basic facts about the embedding. -/

lemma run_append (l₁ l₂ : List Op) (s : AppState) :
    run s (l₁ ++ l₂) = run (run s l₁) l₂ := by
  induction l₁ generalizing s with
  | nil => rfl
  | cons op ops ih => simp [run, ih]

lemma applyOp_insert (s : AppState) (nm em : String) :
    applyOp s (Op.insert nm em) =
      ⟨s.users ++ [⟨(s.user_counter + 1) % 4294967296, nm, em⟩],
       (s.user_counter + 1) % 4294967296⟩ := rfl

lemma applyOp_listUsers (s : AppState) : applyOp s Op.listUsers = s := rfl

lemma applyOp_getUser (s : AppState) (i : Nat) :
    applyOp s (Op.getUser i) = s := rfl

lemma run_insertOps (ps : List (String × String)) (s : AppState)
    (hc : s.user_counter < 4294967296) :
    run s (insertOps ps) =
      ⟨s.users ++ insertedRecords s.user_counter ps,
       (s.user_counter + ps.length) % 4294967296⟩ := by
  induction ps generalizing s with
  | nil =>
    simp [insertOps, run, insertedRecords, Nat.mod_eq_of_lt hc]
  | cons p rest ih =>
    obtain ⟨nm, em⟩ := p
    have h1 : (s.user_counter + 1) % 4294967296 < 4294967296 :=
      Nat.mod_lt _ (by omega)
    have step :
        run s (insertOps ((nm, em) :: rest)) =
          run ⟨s.users ++ [⟨(s.user_counter + 1) % 4294967296, nm, em⟩],
               (s.user_counter + 1) % 4294967296⟩ (insertOps rest) := by
      simp [insertOps, run, applyOp_insert]
    rw [step, ih _ h1]
    refine congrArg₂ AppState.mk ?_ ?_
    · simp [insertedRecords]
    · show ((s.user_counter + 1) % 4294967296 + rest.length) % 4294967296 =
        (s.user_counter + ((nm, em) :: rest).length) % 4294967296
      rw [Nat.mod_add_mod]
      simp only [List.length_cons]
      omega

lemma insertedRecords_map_id (ps : List (String × String)) (c : Nat) :
    (insertedRecords c ps).map User.id =
      (List.range ps.length).map (fun i => (c + 1 + i) % 4294967296) := by
  induction ps generalizing c with
  | nil => simp [insertedRecords]
  | cons p rest ih =>
    obtain ⟨nm, em⟩ := p
    simp only [insertedRecords, List.map_cons, List.length_cons,
      List.range_succ_eq_map, ih, List.map_map]
    refine congrArg₂ List.cons (by omega) ?_
    refine List.map_congr_left fun i _ => ?_
    show ((c + 1) % 4294967296 + 1 + i) % 4294967296 =
      (c + 1 + (i + 1)) % 4294967296
    rw [Nat.add_assoc, Nat.mod_add_mod]
    omega

lemma insertedRecords_names (ps : List (String × String)) (c : Nat) :
    (insertedRecords c ps).map (fun u => (u.name, u.email)) = ps := by
  induction ps generalizing c with
  | nil => rfl
  | cons p rest ih =>
    obtain ⟨nm, em⟩ := p
    simp [insertedRecords, ih]

lemma insertReturns_eq (ps : List (String × String)) (s : AppState) :
    insertReturns s ps = insertedRecords s.user_counter ps := by
  induction ps generalizing s with
  | nil => rfl
  | cons p rest ih =>
    obtain ⟨nm, em⟩ := p
    simpa [insertReturns, insertedRecords, create_user] using
      ih ⟨s.users ++ [⟨(s.user_counter + 1) % 4294967296, nm, em⟩],
          (s.user_counter + 1) % 4294967296⟩

lemma auxInvariant_run (t : List Op) (s : AppState) (hJ : AuxInvariant s)
    (hb : s.user_counter + insertCount t < 4294967296) :
    AuxInvariant (run s t) ∧
      (run s t).user_counter = s.user_counter + insertCount t := by
  induction t generalizing s with
  | nil => simpa [run, insertCount] using hJ
  | cons op rest ih =>
    cases op with
    | listUsers =>
      have := ih s hJ (by simpa [insertCount] using hb)
      simpa [run, applyOp_listUsers, insertCount] using this
    | getUser i =>
      have := ih s hJ (by simpa [insertCount] using hb)
      simpa [run, applyOp_getUser, insertCount] using this
    | insert nm em =>
      have hc1 : s.user_counter + 1 < 4294967296 := by
        simp only [insertCount] at hb; omega
      have hmod : (s.user_counter + 1) % 4294967296 = s.user_counter + 1 :=
        Nat.mod_eq_of_lt hc1
      have hJ' : AuxInvariant
          ⟨s.users ++ [⟨s.user_counter + 1, nm, em⟩], s.user_counter + 1⟩ := by
        obtain ⟨hnd, hbound⟩ := hJ
        constructor
        · simp only [List.map_append, List.map_cons, List.map_nil,
            List.nodup_append]
          refine ⟨hnd, List.nodup_singleton _, ?_⟩
          intro x hx hx1
          simp only [List.mem_singleton] at hx1
          obtain ⟨u, hu, hux⟩ := List.mem_map.mp hx
          have := (hbound u hu).2
          omega
        · intro u hu
          rcases List.mem_append.mp hu with hl | hr
          · refine ⟨(hbound u hl).1, ?_⟩
            have := (hbound u hl).2
            dsimp only
            omega
          · simp only [List.mem_singleton] at hr
            subst hr
            dsimp only
            omega
      have hstep : run s (Op.insert nm em :: rest) =
          run ⟨s.users ++ [⟨s.user_counter + 1, nm, em⟩],
               s.user_counter + 1⟩ rest := by
        simp [run, applyOp_insert, hmod]
      have hb' : s.user_counter + 1 + insertCount rest < 4294967296 := by
        simp only [insertCount] at hb; omega
      have := ih _ hJ' hb'
      rw [hstep]
      refine ⟨this.1, ?_⟩
      rw [this.2]
      simp only [insertCount]
      omega

lemma get_user_found (s : AppState) (i : Nat) (u : User)
    (h : s.users.find? (fun v => v.id == i) = some u) :
    (get_user i true s).1 = ⟨200, Body.jsonUser u⟩ := by
  simp [get_user, h]

lemma get_user_not_found (s : AppState) (i : Nat)
    (h : ∀ u ∈ s.users, u.id ≠ i) :
    (get_user i true s).1 =
      ⟨404, Body.text ("User with ID " ++ toString i ++ " not found")⟩ := by
  have hn : s.users.find? (fun v => v.id == i) = none :=
    List.find?_eq_none.mpr fun u hu => by simpa using h u hu
  simp [get_user, hn]

lemma get_user_status_200 (s : AppState) (i : Nat)
    (h : ∃ u ∈ s.users, u.id = i) :
    (get_user i true s).1.status = 200 := by
  obtain ⟨u, hu, hui⟩ := h
  have hs : (s.users.find? (fun v => v.id == i)).isSome := by
    rw [List.find?_isSome]
    exact ⟨u, hu, by simpa using hui⟩
  obtain ⟨v, hv⟩ := Option.isSome_iff_exists.mp hs
  rw [get_user_found s i v hv]

lemma chain_succ_of_range_map (f : Nat → Nat) (k : Nat)
    (hf : ∀ i, i + 1 < k → f (i + 1) = f i + 1) :
    List.Chain' (fun a b => b = a + 1) ((List.range k).map f) := by
  rw [List.chain'_iff_get]
  intro i h
  simp only [List.length_map, List.length_range] at h
  simp only [List.get_eq_getElem, List.getElem_map, List.getElem_range]
  exact hf i (by omega)

/-! The claims. -/

/-- C1: once the guard is held, `create_user` computes
`new_id = user_counter + 1` (u32 addition, i.e. taken mod 2^32), appends
the record `{id: new_id, name, email}` at the end of the user list, sets
the counter to `new_id`, and responds 201 with the JSON of exactly that
record. -/
theorem C1_create_user_spec (s : AppState) (nm em : String) :
    create_user nm em true s =
      (⟨201, Body.jsonUser ⟨(s.user_counter + 1) % 4294967296, nm, em⟩⟩,
       ⟨s.users ++ [⟨(s.user_counter + 1) % 4294967296, nm, em⟩],
        (s.user_counter + 1) % 4294967296⟩) := rfl

/-- C3: `get_user` answers 200 with the JSON of a stored record whose
identifier equals the requested one when such a record is present, and
answers 404 with the plain-text body naming the identifier exactly when
no stored record carries that identifier. -/
theorem C3_get_user_spec (s : AppState) (i : Nat) :
    ((∃ u ∈ s.users, u.id = i) →
      (get_user i true s).1.status = 200 ∧
        ∃ u ∈ s.users, u.id = i ∧ (get_user i true s).1.body = Body.jsonUser u) ∧
    ((¬ ∃ u ∈ s.users, u.id = i) ↔
      (get_user i true s).1 =
        ⟨404, Body.text ("User with ID " ++ toString i ++ " not found")⟩) := by
  rcases hf : s.users.find? (fun v => v.id == i) with - | u
  · have hnone : ∀ u ∈ s.users, u.id ≠ i := by
      intro u hu
      have := List.find?_eq_none.mp hf u hu
      simpa using this
    have h404 := get_user_not_found s i hnone
    constructor
    · rintro ⟨u, hu, hui⟩
      exact absurd hui (hnone u hu)
    · exact iff_of_true (by rintro ⟨u, hu, hui⟩; exact hnone u hu hui) h404
  · have hu : u ∈ s.users := List.mem_of_find?_eq_some hf
    have hui : u.id = i := by simpa using List.find?_some hf
    have h200 := get_user_found s i u hf
    constructor
    · rintro -
      exact ⟨by rw [h200], u, hu, hui, by rw [h200]⟩
    · constructor
      · intro hne
        exact absurd ⟨u, hu, hui⟩ hne
      · intro hresp
        rw [h200] at hresp
        cases hresp

/-- C3 witness: on the seed state, id 2 is found (status 200) and id 99
is answered with the 404 message naming 99. -/
theorem C3_witness :
    (get_user 2 true seed_state).1.status = 200 ∧
    (get_user 99 true seed_state).1 =
      ⟨404, Body.text ("User with ID " ++ toString 99 ++ " not found")⟩ :=
  ⟨((C3_get_user_spec seed_state 2).1 (by decide)).1,
   (C3_get_user_spec seed_state 99).2.mp (by decide)⟩

/-- C4: on guard-acquisition failure each store-touching handler answers
500 with body `Failed to lock application state`, leaves the state
untouched, and the status is never the 404 not-found status. -/
theorem C4_lock_failure (s : AppState) (i : Nat) (nm em : String) :
    get_users false s =
      (⟨500, Body.text "Failed to lock application state"⟩, s) ∧
    get_user i false s =
      (⟨500, Body.text "Failed to lock application state"⟩, s) ∧
    create_user nm em false s =
      (⟨500, Body.text "Failed to lock application state"⟩, s) ∧
    (get_users false s).1.status ≠ 404 ∧
    (get_user i false s).1.status ≠ 404 ∧
    (create_user nm em false s).1.status ≠ 404 := by
  refine ⟨rfl, rfl, rfl, ?_, ?_, ?_⟩ <;> · show (500 : Nat) ≠ 404; omega

/-- C8: `get_users` and `get_user` leave the record list and the counter
unchanged on every input, whether or not the guard was acquired; only
`create_user` mutates the state. -/
theorem C8_read_only (s : AppState) (i : Nat) (lockOk : Bool) :
    (get_users lockOk s).2 = s ∧ (get_user i lockOk s).2 = s := by
  cases lockOk <;> exact ⟨rfl, rfl⟩

/-- C2 fails as stated: after 2^32 − 2 inserts from the seed the u32
counter has wrapped around to 0 while a record with identifier 3 is
present, so the counter is no longer ≥ the maximum stored identifier. -/
theorem C2_counterexample :
    ¬ StoreInvariant
        (run seed_state (insertOps (List.replicate 4294967294 ("x", "x")))) := by
  intro hInv
  have hrun :=
    run_insertOps (List.replicate 4294967294 ("x", "x")) seed_state (by decide)
  rw [List.length_replicate] at hrun
  obtain ⟨-, hle⟩ := hInv
  rw [hrun] at hle
  have hmem : (⟨3, "x", "x"⟩ : User) ∈
      seed_state.users ++
        insertedRecords seed_state.user_counter
          (List.replicate 4294967294 ("x", "x")) := by
    refine List.mem_append_right _ ?_
    rw [show (4294967294 : Nat) = 4294967293 + 1 from rfl, List.replicate_succ]
    show (⟨3, "x", "x"⟩ : User) ∈
      insertedRecords seed_state.user_counter
        (("x", "x") :: List.replicate 4294967293 ("x", "x"))
    exact List.mem_cons_self _ _
  have h3 := hle _ hmem
  have h4 : (3 : Nat) ≤ (2 + 4294967294) % 4294967296 := h3
  omega

/-- C2 amended: every operation sequence containing fewer than 2^32 − 2
inserts preserves the store invariant from the seed state (identifiers
pairwise distinct, counter ≥ every identifier present). -/
theorem C2_amended (t : List Op) (h : insertCount t < 4294967294) :
    StoreInvariant (run seed_state t) := by
  have hJ : AuxInvariant seed_state := ⟨by decide, by decide⟩
  have hb : seed_state.user_counter + insertCount t < 4294967296 := by
    show 2 + insertCount t < 4294967296
    omega
  obtain ⟨⟨hnd, hbd⟩, -⟩ := auxInvariant_run t seed_state hJ hb
  exact ⟨hnd, fun u hu => (hbd u hu).2⟩

/-- C2 witness: a short mixed trace keeps the invariant. -/
theorem C2_witness :
    StoreInvariant
      (run seed_state [Op.insert "Carol" "carol@example.com",
        Op.getUser 3, Op.listUsers, Op.insert "Dan" "dan@example.com"]) :=
  C2_amended _ (by decide)

/-- C6 fails for arbitrary store states: in a state already holding a
record with identifier 3 while the counter is 2, insert returns a fresh
record with identifier 3, but a subsequent get of identifier 3 still
answers with the pre-existing record, not the one insert returned. -/
theorem C6_counterexample :
    (create_user "Carol" "carol@example.com" true
        ⟨[⟨3, "X", "x@example.com"⟩], 2⟩).1.body =
      Body.jsonUser ⟨3, "Carol", "carol@example.com"⟩ ∧
    (get_user 3 true
        (create_user "Carol" "carol@example.com" true
          ⟨[⟨3, "X", "x@example.com"⟩], 2⟩).2).1.body ≠
      Body.jsonUser ⟨3, "Carol", "carol@example.com"⟩ :=
  ⟨rfl, by decide⟩

/-- C6 amended: in every store state whose stored identifiers are all at
most the counter and whose counter is below the u32 maximum, insert
returns the record R = {id: counter + 1, name, email} and a get of R.id
on the resulting state answers 200 with exactly R. -/
theorem C6_amended (s : AppState) (nm em : String)
    (hle : ∀ u ∈ s.users, u.id ≤ s.user_counter)
    (hc : s.user_counter + 1 < 4294967296) :
    (create_user nm em true s).1 =
      ⟨201, Body.jsonUser ⟨s.user_counter + 1, nm, em⟩⟩ ∧
    (get_user (s.user_counter + 1) true (create_user nm em true s).2).1 =
      ⟨200, Body.jsonUser ⟨s.user_counter + 1, nm, em⟩⟩ := by
  have hmod : (s.user_counter + 1) % 4294967296 = s.user_counter + 1 :=
    Nat.mod_eq_of_lt hc
  constructor
  · simp [create_user, hmod]
  · have hn : s.users.find? (fun v => v.id == s.user_counter + 1) = none :=
      List.find?_eq_none.mpr (by
        intro u hu
        have := hle u hu
        simp only [beq_iff_eq]
        omega)
    have hfind :
        (create_user nm em true s).2.users.find?
            (fun v => v.id == s.user_counter + 1) =
          some (⟨s.user_counter + 1, nm, em⟩ : User) := by
      show (s.users ++ ([⟨(s.user_counter + 1) % 4294967296, nm, em⟩] : List User)).find?
          (fun v => v.id == s.user_counter + 1) = _
      rw [hmod, List.find?_append, hn]
      simp
    exact get_user_found _ _ _ hfind

/-- C6 witness: inserting Carol into the seed state yields the record
with identifier 3 and a get of 3 returns exactly it. -/
theorem C6_witness :
    (create_user "Carol" "carol@example.com" true seed_state).1 =
      ⟨201, Body.jsonUser
        ⟨seed_state.user_counter + 1, "Carol", "carol@example.com"⟩⟩ ∧
    (get_user (seed_state.user_counter + 1) true
        (create_user "Carol" "carol@example.com" true seed_state).2).1 =
      ⟨200, Body.jsonUser
        ⟨seed_state.user_counter + 1, "Carol", "carol@example.com"⟩⟩ :=
  C6_amended seed_state "Carol" "carol@example.com" (by decide) (by decide)

/-- C7: after any sequence of inserts from the seed, `get_users` answers
200 with exactly the two seed records followed by every inserted record
in creation order (the name/email pairs reproduce the input sequence, so
nothing is duplicated or omitted), and it leaves the state unchanged. -/
theorem C7_list_users (ps : List (String × String)) :
    (get_users true (run seed_state (insertOps ps))).1 =
      ⟨200, Body.jsonUsers (seed_state.users ++ insertedRecords 2 ps)⟩ ∧
    (insertedRecords 2 ps).map (fun u => (u.name, u.email)) = ps ∧
    (get_users true (run seed_state (insertOps ps))).2 =
      run seed_state (insertOps ps) := by
  have hrun := run_insertOps ps seed_state (by decide)
  refine ⟨?_, insertedRecords_names ps 2, rfl⟩
  rw [hrun]
  rfl

lemma seed_insert_ids (ps : List (String × String)) :
    (insertReturns seed_state ps).map User.id =
      (List.range ps.length).map (fun i => (3 + i) % 4294967296) := by
  rw [insertReturns_eq, insertedRecords_map_id]
  refine List.map_congr_left fun i _ => ?_
  show (2 + 1 + i) % 4294967296 = (3 + i) % 4294967296
  omega

lemma seed_insert_ids_of_lt (ps : List (String × String))
    (h : ps.length < 4294967294) :
    (insertReturns seed_state ps).map User.id =
      (List.range ps.length).map (fun i => 3 + i) := by
  rw [seed_insert_ids]
  refine List.map_congr_left fun i hi => ?_
  rw [List.mem_range] at hi
  exact Nat.mod_eq_of_lt (by omega)

lemma nodup_shift_range (k : Nat) :
    ((List.range k).map (fun i => 3 + i)).Nodup :=
  (List.nodup_range k).map (fun a b hab => by omega)

lemma not_chain_of_wrap (k : Nat) (hk : 4294967294 ≤ k) :
    ¬ List.Chain' (fun a b => b = a + 1)
        ((List.range k).map (fun i => (3 + i) % 4294967296)) := by
  intro hch
  rw [List.chain'_iff_get] at hch
  have hidx : 4294967292 <
      ((List.range k).map (fun i => (3 + i) % 4294967296)).length - 1 := by
    simp only [List.length_map, List.length_range]
    omega
  have hstep := hch 4294967292 hidx
  simp only [List.get_eq_getElem, List.getElem_map, List.getElem_range] at hstep
  omega

/-- C5 fails as stated over unbounded insert sequences: in a run of
2^32 − 2 identical inserts from the seed the returned identifiers stop
increasing by 1 once the u32 counter wraps around. -/
theorem C5_counterexample :
    ¬ List.Chain' (fun a b => b = a + 1)
        ((insertReturns seed_state
            (List.replicate 4294967294 ("n", "e"))).map User.id) := by
  rw [seed_insert_ids, List.length_replicate]
  exact not_chain_of_wrap 4294967294 (by omega)

/-- C5 amended: for every sequence of fewer than 2^32 − 2 insert calls
from the seed state, the identifiers returned are exactly 3, 4, …,
length + 2 — strictly increasing by exactly 1 starting at seed max + 1 —
and pairwise distinct, so two inserts with identical name and email
still obtain records with different identifiers. -/
theorem C5_amended (ps : List (String × String))
    (h : ps.length < 4294967294) :
    (insertReturns seed_state ps).map User.id =
      (List.range ps.length).map (fun i => 3 + i) ∧
    ((insertReturns seed_state ps).map User.id).Nodup :=
  ⟨seed_insert_ids_of_lt ps h, by
    rw [seed_insert_ids_of_lt ps h]
    exact nodup_shift_range _⟩

/-- C5 witness: two inserts with the same name and email from the seed
return identifiers 3 and 4, which are distinct. -/
theorem C5_witness :
    (insertReturns seed_state [("n", "e"), ("n", "e")]).map User.id =
      (List.range 2).map (fun i => 3 + i) ∧
    ((insertReturns seed_state [("n", "e"), ("n", "e")]).map User.id).Nodup :=
  C5_amended [("n", "e"), ("n", "e")] (by decide)

/-- C9: the identifier counter is a u32 and insert adds 1 with wrapping
mod-2^32 arithmetic: at counter 2^32 − 1 the assigned identifier (and the
stored counter) wraps to 0; consequently the identifiers of fewer than
2^32 − 2 inserts from the seed increase by exactly 1 each call and are
pairwise distinct, while any run of at least 2^32 − 2 inserts loses
strict monotonicity. -/
theorem C9_u32_wrap :
    (∀ (s : AppState) (nm em : String), s.user_counter = 4294967295 →
      (create_user nm em true s).1.body = Body.jsonUser ⟨0, nm, em⟩ ∧
      (create_user nm em true s).2.user_counter = 0) ∧
    (∀ ps : List (String × String), ps.length < 4294967294 →
      List.Chain' (fun a b => b = a + 1)
        ((insertReturns seed_state ps).map User.id) ∧
      ((insertReturns seed_state ps).map User.id).Nodup) ∧
    (∀ (k : Nat) (nm em : String), 4294967294 ≤ k →
      ¬ List.Chain' (fun a b => b = a + 1)
        ((insertReturns seed_state
            (List.replicate k (nm, em))).map User.id)) := by
  refine ⟨?_, ?_, ?_⟩
  · intro s nm em hs
    constructor
    · show Body.jsonUser ⟨(s.user_counter + 1) % 4294967296, nm, em⟩ =
        Body.jsonUser ⟨0, nm, em⟩
      rw [hs]
    · show (s.user_counter + 1) % 4294967296 = 0
      rw [hs]
  · intro ps hlen
    rw [seed_insert_ids_of_lt ps hlen]
    exact ⟨chain_succ_of_range_map _ _ (fun i hi => by omega),
      nodup_shift_range _⟩
  · intro k nm em hk
    rw [seed_insert_ids, List.length_replicate]
    exact not_chain_of_wrap k hk

/-- C9 witness: a state with counter 2^32 − 1 wraps to identifier 0, two
inserts from the seed still chain by 1, and a run of 2^32 − 2 inserts
does not. -/
theorem C9_witness :
    (create_user "a" "b" true ⟨[], 4294967295⟩).1.body =
      Body.jsonUser ⟨0, "a", "b"⟩ ∧
    List.Chain' (fun a b => b = a + 1)
      ((insertReturns seed_state [("a", "b"), ("c", "d")]).map User.id) ∧
    ¬ List.Chain' (fun a b => b = a + 1)
      ((insertReturns seed_state
          (List.replicate 4294967294 ("a", "b"))).map User.id) :=
  ⟨(C9_u32_wrap.1 ⟨[], 4294967295⟩ "a" "b" rfl).1,
   (C9_u32_wrap.2.1 [("a", "b"), ("c", "d")] (by decide)).1,
   C9_u32_wrap.2.2 4294967294 "a" "b" (by decide)⟩

/-- C10 fails as stated: the store state reached by 2^32 − 2 inserts
from the seed contains a record whose identifier is 0 (the u32 counter
wrapped), so a get of identifier 0 answers 200 there, not 404. -/
theorem C10_counterexample :
    (get_user 0 true
        (run seed_state
          (insertOps (List.replicate 4294967294 ("x", "y"))))).1.status = 200 := by
  apply get_user_status_200
  have hrun :=
    run_insertOps (List.replicate 4294967294 ("x", "y")) seed_state (by decide)
  rw [hrun]
  have hids :=
    insertedRecords_map_id (List.replicate 4294967294 ("x", "y"))
      seed_state.user_counter
  rw [List.length_replicate] at hids
  have h0 : (0 : Nat) ∈
      (insertedRecords seed_state.user_counter
        (List.replicate 4294967294 ("x", "y"))).map User.id := by
    rw [hids]
    refine List.mem_map.mpr ⟨4294967293, List.mem_range.mpr (by omega), ?_⟩
    show (2 + 1 + 4294967293) % 4294967296 = 0
    omega
  obtain ⟨u, hu, hid⟩ := List.mem_map.mp h0
  exact ⟨u, List.mem_append_right _ hu, hid⟩

/-- C10 amended: in every state reached from the seed by a trace with
fewer than 2^32 − 2 inserts, every stored identifier is at least 1, and
a get of identifier 0 answers 404 with the message naming 0. -/
theorem C10_amended (t : List Op) (h : insertCount t < 4294967294) :
    (∀ u ∈ (run seed_state t).users, 1 ≤ u.id) ∧
    (get_user 0 true (run seed_state t)).1 =
      ⟨404, Body.text ("User with ID " ++ toString 0 ++ " not found")⟩ := by
  have hJ : AuxInvariant seed_state := ⟨by decide, by decide⟩
  have hb : seed_state.user_counter + insertCount t < 4294967296 := by
    show 2 + insertCount t < 4294967296
    omega
  obtain ⟨⟨-, hbd⟩, -⟩ := auxInvariant_run t seed_state hJ hb
  refine ⟨fun u hu => (hbd u hu).1, ?_⟩
  refine get_user_not_found _ _ (fun u hu => ?_)
  have := (hbd u hu).1
  omega

/-- C10 witness: after one insert from the seed, identifier 0 is still
absent and answered 404. -/
theorem C10_witness :
    (∀ u ∈ (run seed_state [Op.insert "Carol" "carol@example.com"]).users,
      1 ≤ u.id) ∧
    (get_user 0 true
        (run seed_state [Op.insert "Carol" "carol@example.com"])).1 =
      ⟨404, Body.text ("User with ID " ++ toString 0 ++ " not found")⟩ :=
  C10_amended _ (by decide)

end UserStore
